import Mathlib

/-!
Verification development for the reference-resolution and document-structuring
core of a Markdown-vault language server (sources: `src/diagnostics.rs`,
`src/codeactions.rs`, `src/symbol.rs`, `src/daily.rs`, `src/commands.rs`,
`src/config.rs`).  The `vault` module (reference index) is an external
collaborator and is modelled by abstract data and opaque predicate fields, as
the specification prescribes.
-/

namespace MdOxide

/-- LSP position: zero-based line and character (from `tower_lsp::lsp_types::Position`). -/
structure Position where
  line : Nat
  character : Nat
deriving DecidableEq, Repr

/-- LSP range with a start and an end position (`end` is a Lean keyword, so the
field is named `stop`). -/
structure Range where
  start : Position
  stop : Position
deriving DecidableEq, Repr

/-- Modelled from the spec: the `vault::Reference` enum is not under `src/`;
the spec's data model gives a kind tag `WikiLink | Tag | Footnote | …`.
`src/diagnostics.rs` pattern-matches on the `Footnote` variant. -/
inductive RefKind where
  | wikiLink
  | tag
  | footnote
  | other
deriving DecidableEq, Repr

/-- Payload shared by all reference variants: `reference.data()` exposes the
raw target text and the source range. -/
structure RefData where
  reference_text : String
  range : Range
deriving DecidableEq, Repr

/-- One occurrence of link syntax: a kind tag plus its data. -/
structure Reference where
  kind : RefKind
  data : RefData
deriving DecidableEq, Repr

/-- Modelled from the spec: `Reference::matches_type` (in the external `vault`
module) holds when two references share the same reference kind. -/
def Reference.matches_type (self other : Reference) : Bool :=
  self.kind == other.kind

/-- Variant tag of a referenceable target, as matched in `src/symbol.rs`
(`Referenceable::File`, `Referenceable::Tag`, catch-all for the rest). -/
inductive RefableVariant where
  | file
  | tag
  | otherVariant
deriving DecidableEq, Repr

/-- Modelled from the spec: a `vault::Referenceable` (external module) carries
a file path, an optional range, a canonical display name, and the two opaque
resolution predicates `is_reference` (loose) and `matches_reference` (strict),
each taking the vault root, a reference and the reference's file path. -/
structure Referenceable where
  variant : RefableVariant
  path : String
  range : Option Range
  refname : String → Option String
  is_reference : String → Reference → String → Bool
  matches_reference : String → Reference → String → Bool

/-- Modelled from the spec: the per-request snapshot of the external reference
index — the vault root directory, an ordered per-file reference listing, and
the vault-wide referenceable set. -/
structure Vault where
  root_dir : String
  files : List (String × List Reference)
  referenceables : List Referenceable

/-- `vault.select_references(Some(path))`: the references of one file, paired
with their path; `None` when the index has no snapshot for that file. -/
def Vault.selectReferencesFor (v : Vault) (path : String) :
    Option (List (String × Reference)) :=
  (v.files.lookup path).map (fun refs => refs.map (fun r => (path, r)))

/-- `vault.select_references(None)`: every reference in the vault, paired with
its file path. -/
def Vault.allRefPairs (v : Vault) : List (String × Reference) :=
  v.files.flatMap (fun pr => pr.2.map (fun r => (pr.1, r)))

/-- A published LSP diagnostic (the fields `src/diagnostics.rs` sets;
severity `3` is `DiagnosticSeverity::INFORMATION`). -/
structure Diagnostic where
  range : Range
  message : String
  source : Option String
  severity : Option Nat
deriving DecidableEq, Repr

/-- The duplicate-count filter from `src/diagnostics.rs` lines 26–30: another
vault reference is counted for `r` (located at `path`) iff it matches `r`'s
type, footnote references only count within `r`'s own file, and the target
texts coincide. -/
def countsFor (path : String) (r : Reference) (pr : String × Reference) : Bool :=
  pr.2.matches_type r &&
    (!(r.kind == RefKind.footnote) || pr.1 == path) &&
    pr.2.data.reference_text == r.data.reference_text

/-- The diagnostic message of `src/diagnostics.rs` lines 26–33: count the
matching occurrences among all vault references and phrase the message from
that count. -/
def unresolvedMessage (allreferences : List (String × Reference))
    (path : String) (r : Reference) : String :=
  match (allreferences.filter (countsFor path r)).length with
  | num =>
    if num > 1 then "Unresolved Reference used " ++ toString num ++ " times"
    else "Unresolved Reference"

/-- A reference is unresolved (loose predicate) iff no referenceable reports
`is_reference` for it — the filter on line 18–20 of `src/diagnostics.rs`. -/
def isUnresolvedLoose (v : Vault) (pr : String × Reference) : Bool :=
  !(v.referenceables.any (fun able => able.is_reference v.root_dir pr.2 pr.1))

/-- The pure core of `diagnostics` (`src/diagnostics.rs`): `none` models the
silent early returns when the index lacks a snapshot, otherwise one
`Information` diagnostic per unresolved reference of the changed file. -/
def diagnostics (v : Vault) (path : String) : Option (List Diagnostic) :=
  (v.selectReferencesFor path).map (fun pathreferences =>
    let allreferences := v.allRefPairs
    let unresolved := pathreferences.filter (isUnresolvedLoose v)
    unresolved.map (fun pr =>
      { range := pr.2.data.range
        message := unresolvedMessage allreferences pr.1 pr.2
        source := some "Obsidian LS"
        severity := some 3 }))

/-- Spec-side definition, following the claim's words: the number of
vault-wide *unresolved* references sharing `r`'s kind and target text, with
footnotes scoped to `r`'s own source file. -/
def specUnresolvedCount (v : Vault) (path : String) (r : Reference) : Nat :=
  ((v.allRefPairs.filter (isUnresolvedLoose v)).filter (countsFor path r)).length

/-- Code-side vault-wide duplicate count: among *all* references (resolved or
not) of the vault, those matching `r`'s kind and target text, footnotes scoped
to `r`'s own file. -/
def vaultWideCount (v : Vault) (path : String) (r : Reference) : Nat :=
  (v.allRefPairs.filter (countsFor path r)).length

/-! ### Path and URL model

Models of the external `std::path` / `url` routines the core calls (unix
semantics).  Paths are strings; a file URL is represented by its path, and the
conversion succeeds exactly on absolute paths, as `Url::from_file_path`
requires.  The model assumes path components without trailing slashes or
`..`, which is the shape of every path the program builds here. -/

/-- A unix path is absolute iff it starts with `/`. -/
def isAbsolute (p : String) : Bool :=
  match p.data with
  | [] => false
  | c :: _ => c == '/'

/-- `PathBuf::push` semantics: pushing an absolute path replaces the whole
path, otherwise a separator and the component are appended. -/
def joinPath (root rel : String) : String :=
  if isAbsolute rel then rel else root ++ "/" ++ rel

/-- `Path::set_extension("md")` on a file *name* (no separators): the
extension — everything after the last `.` that is not the leading
character — is replaced by `md`; a name without an extension gets `.md`
appended. -/
def setExtensionMdName (n : List Char) : List Char :=
  match (n.reverse.findIdx? (fun c => c == '.')) with
  | some k =>
    if k + 1 < n.length then n.take (n.length - k - 1) ++ ('.' :: 'm' :: 'd' :: [])
    else n ++ ('.' :: 'm' :: 'd' :: [])
  | none => n ++ ('.' :: 'm' :: 'd' :: [])

/-- `PathBuf::set_extension("md")` / `Path::with_extension("md")` on a full
path: only the final component (after the last `/`) is rewritten; a path whose
final component is empty has no file name and is left unchanged. -/
def withExtensionMd (p : String) : String :=
  let c := p.data
  match (c.reverse.findIdx? (fun ch => ch == '/')) with
  | some k =>
    let cut := c.length - k
    if c.drop cut = [] then p
    else String.mk (c.take cut ++ setExtensionMdName (c.drop cut))
  | none => String.mk (setExtensionMdName c)

/-- `Url::from_file_path`: succeeds exactly on absolute paths; the URL is
represented by the path itself. -/
def urlFromFilePath (p : String) : Option String :=
  if isAbsolute p then some p else none

/-- `Url::to_file_path` on a file URL produced by this model: recovers the
path. -/
def urlToFilePath (u : String) : Option String :=
  some u

/-- `Path::parent`: the path up to (excluding) the final `/`; `none` when the
path has no separator. -/
def parentDir (p : String) : Option String :=
  match (p.data.reverse.findIdx? (fun ch => ch == '/')) with
  | some k => some (String.mk (p.data.take (p.data.length - k - 1)))
  | none => none

/-- Rust `{:?}` (Debug) rendering of a string without escapes: surrounding
quotes. -/
def debugStr (s : String) : String :=
  String.mk ('\"' :: s.data ++ ['\"'])

/-- `pathdiff::diff_paths(path, base)`: `none` iff `path` is relative and
`base` absolute; when `base ++ "/"` prefixes `path` the result is the
remainder (the general `..`-computation of the crate is not needed by any
path the program builds: here `path` always extends `base`). -/
def diffPaths (path base : String) : Option String :=
  if isAbsolute path = isAbsolute base then
    if (base ++ "/").data.isPrefixOf path.data then
      some (String.mk (path.data.drop (base.data.length + 1)))
    else some path
  else if isAbsolute path then some path
  else none

/-! ### Code actions (`src/codeactions.rs`) -/

/-- The requested range of a `CodeActionParams`. -/
structure CodeActionParams where
  range : Range
deriving DecidableEq, Repr

/-- One proposed quick-fix: its title and the URI of the single
`ResourceOp::Create` edit it wraps. -/
structure CodeAction where
  title : String
  createFileUri : String
deriving DecidableEq, Repr

/-- The candidate filter of `src/codeactions.rs` lines 23–32: strictly
unresolved, anchor-free, starting on the requested line, and spanning the
requested character columns. -/
def isCandidate (v : Vault) (params : CodeActionParams)
    (pr : String × Reference) : Bool :=
  !(v.referenceables.any (fun able =>
      able.matches_reference v.root_dir pr.2 pr.1)) &&
  !(pr.2.data.reference_text.data.contains '#') &&
  pr.2.data.range.start.line == params.range.start.line &&
  decide (pr.2.data.range.start.character ≤ params.range.start.character) &&
  decide (pr.2.data.range.stop.character ≥ params.range.stop.character)

/-- `code_actions` (`src/codeactions.rs`): `none` when either reference query
has no snapshot; otherwise each candidate is mapped to one create-file action
(dropped if the path cannot become a URL or cannot be diffed against the
root). -/
def code_actions (v : Vault) (params : CodeActionParams) (path : String) :
    Option (List CodeAction) :=
  (v.selectReferencesFor path).bind (fun pathreferences =>
    let unresolved_file_links := pathreferences.filter (isCandidate v params)
    some (unresolved_file_links.filterMap (fun pr =>
      let new_path_buf :=
        withExtensionMd (joinPath v.root_dir pr.2.data.reference_text)
      (urlFromFilePath new_path_buf).bind (fun new_path =>
        (diffPaths new_path_buf v.root_dir).map (fun rel =>
          { title := "Create File: " ++ debugStr rel
            createFileUri := new_path })))))

/-! ### Workspace symbols (`src/symbol.rs`)

Calendar dates are modelled as integers (a day number); chrono's `format`
call (external crate) is an abstract parameter `fmt : String → Int → String`
taking the strftime pattern and the date.  `Duration::try_days i` succeeds for
every `i` in `-7..=7`, so the offset addition is total here. -/

/-- LSP symbol kinds used by `src/symbol.rs` (`FILE`, `CONSTANT`, `KEY`). -/
inductive SymbolKind where
  | file
  | constant
  | key
deriving DecidableEq, Repr

/-- An LSP location: file URI plus range. -/
structure Location where
  uri : String
  range : Range
deriving DecidableEq, Repr

/-- The fields of `SymbolInformation` that `src/symbol.rs` populates. -/
structure SymbolInformation where
  name : String
  kind : SymbolKind
  location : Location
deriving DecidableEq, Repr

/-- The per-referenceable entry of `workspace_symbol` lines 23–53: `File`
variants get the fixed range `(0,0)–(0,1)`, others their own range; the entry
is dropped when the range, the display name or the URL is unavailable. -/
def mkRefSymbol (v : Vault) (able : Referenceable) : Option SymbolInformation :=
  (match able.variant with
    | RefableVariant.file =>
      some ({ start := { line := 0, character := 0 }
              stop := { line := 0, character := 1 } } : Range)
    | _ => able.range).bind (fun range =>
  (able.refname v.root_dir).bind (fun name =>
  (urlFromFilePath able.path).map (fun uri =>
    { name := name
      kind := match able.variant with
        | RefableVariant.file => SymbolKind.file
        | RefableVariant.tag => SymbolKind.constant
        | _ => SymbolKind.key
      location := { uri := uri, range := range } })))

/-- `date_to_filename`: format the date with the configured daily-note
pattern. -/
def date_to_filename (fmt : String → Int → String) (dailynote : String)
    (date : Int) : String :=
  fmt dailynote date

/-- `relative_date_string` (`src/symbol.rs` lines 60–74), with the Rust match
arms in source order (`1`, `2..=7`, `-1`, `-7..=-1`, `_`); `fmt "%A" date`
models `date.format("%A")`, the weekday name. -/
def relative_date_string (fmt : String → Int → String) (today date : Int) :
    Option String :=
  if today = date then some "today"
  else
    let d := date - today
    if d = 1 then some "tomorrow"
    else if 2 ≤ d ∧ d ≤ 7 then some ("next " ++ fmt "%A" date)
    else if d = -1 then some "yesterday"
    else if -7 ≤ d ∧ d ≤ -1 then some ("last " ++ fmt "%A" date)
    else none

/-- `date_to_match_string`: the relative phrase, a colon, and the formatted
filename. -/
def date_to_match_string (fmt : String → Int → String) (dailynote : String)
    (today date : Int) : Option String :=
  (relative_date_string fmt today date).map (fun rel =>
    rel ++ ": " ++ date_to_filename fmt dailynote date)

/-- One synthetic date entry (`src/symbol.rs` lines 88–109): dropped when the
relative phrase is unavailable or the bare formatted filename cannot be
converted to a file URL. -/
def mkDateSymbol (fmt : String → Int → String) (dailynote : String)
    (today date : Int) : Option SymbolInformation :=
  (date_to_match_string fmt dailynote today date).bind (fun name =>
  (urlFromFilePath (date_to_filename fmt dailynote date)).map (fun uri =>
    { name := name
      kind := SymbolKind.file
      location :=
        { uri := uri
          range := { start := { line := 0, character := 0 }
                     stop := { line := 0, character := 1 } } } }))

/-- The day offsets `-7..=7` in iteration order. -/
def dayOffsets : List Int :=
  [-7, -6, -5, -4, -3, -2, -1, 0, 1, 2, 3, 4, 5, 6, 7]

/-- `workspace_symbol` (`src/symbol.rs`): the referenceable-derived entries
followed by the synthetic date entries. -/
def workspace_symbol (fmt : String → Int → String) (dailynote : String)
    (v : Vault) (today : Int) : Option (List SymbolInformation) :=
  let symbol_informations := v.referenceables.filterMap (mkRefSymbol v)
  let days := dayOffsets.filterMap (fun i =>
    mkDateSymbol fmt dailynote today (today + i))
  some (symbol_informations ++ days)

/-! ### Heading tree builder (`src/symbol.rs` lines 128–173) -/

/-- A document heading: numeric level (1 = outermost), text, source range. -/
structure MDHeading where
  level : Nat
  heading_text : String
  range : Range
deriving DecidableEq, Repr

/-- A node of the built outline: its heading and optionally its children
(absence of children is `none`, never an empty list). -/
inductive Node where
  | mk (heading : MDHeading) (children : Option (List Node)) : Node
deriving Repr

/-- The heading of a node. -/
def Node.heading : Node → MDHeading
  | Node.mk h _ => h

/-- The children of a node. -/
def Node.children : Node → Option (List Node)
  | Node.mk _ cs => cs

/-- `construct_tree` (`src/symbol.rs`): recursive partition of the ordered
heading sequence at the first later heading of level ≤ the head's level. -/
def construct_tree : List MDHeading → Option (List Node)
  | [only] => some [Node.mk only none]
  | first :: rest =>
    match (rest.findIdx? (fun heading => heading.level ≤ first.level)) with
    | some index =>
      let node := Node.mk first (construct_tree (rest.take index))
      some (node :: ((construct_tree (rest.drop index)).getD []))
    | none => some [Node.mk first (construct_tree rest)]
  | [] => none
termination_by l => l.length
decreasing_by
  all_goals simp [List.length_take, List.length_drop]
  all_goals omega

/-- Pre-order flattening of a forest: each node's heading, then its children,
then its later siblings. -/
def flattenForest : List Node → List MDHeading
  | [] => []
  | Node.mk h none :: rest => h :: flattenForest rest
  | Node.mk h (some cs) :: rest => h :: (flattenForest cs ++ flattenForest rest)

/-- Pre-order flattening of an optional forest (`none` flattens to the empty
sequence). -/
def preorderOpt (o : Option (List Node)) : List MDHeading :=
  flattenForest (o.getD [])

/-! ### Daily-note resolution (`src/daily.rs`, `src/config.rs`)

The `Notebook` struct and the `notebooks` field of `Settings` are declared in
repository code outside `src/`; they are modelled from the spec: a notebook is
a folder path plus a strftime note-format pattern, and settings hold an
order-preserving name→notebook mapping next to the default daily-note format.

chrono's strftime machinery is an external crate; it is modelled here on the
fragment the development uses: literal characters and the `%Y`/`%m`/`%d`
specifiers (fixed widths 4/2/2).  `StrftimeItems::new(..).parse()` fails on a
`%` followed by anything else — in particular on a trailing `%`, which is also
invalid for chrono — and that failure is what the `expect` in
`Notebook::match_filename` turns into a panic. -/

/-- A named folder plus note-format pattern (modelled from the spec). -/
structure Notebook where
  folder : String
  note_format : String
deriving DecidableEq, Repr

/-- The settings consumed by this core: the default daily-note format string
(`src/config.rs`) and the ordered notebooks map (modelled from the spec). -/
structure Settings where
  dailynote : String
  notebooks : List (String × Notebook)

/-- One parsed strftime item of the modelled fragment. -/
inductive FmtItem where
  | lit (c : Char)
  | year
  | month
  | day
deriving DecidableEq, Repr

/-- `StrftimeItems::new(format).parse()` on the modelled fragment: `none` is
the parse error that `Notebook::match_filename` `expect`s away. -/
def parseStrftime : List Char → Option (List FmtItem)
  | [] => some []
  | '%' :: 'Y' :: rest => (parseStrftime rest).map (fun is => FmtItem.year :: is)
  | '%' :: 'm' :: rest => (parseStrftime rest).map (fun is => FmtItem.month :: is)
  | '%' :: 'd' :: rest => (parseStrftime rest).map (fun is => FmtItem.day :: is)
  | '%' :: _ => none
  | c :: rest => (parseStrftime rest).map (fun is => FmtItem.lit c :: is)

/-- A calendar date for the strftime model. -/
structure ADate where
  year : Nat
  month : Nat
  day : Nat
deriving DecidableEq, Repr

/-- The decimal digit character of `n < 10`. -/
def digitChar (n : Nat) : Char :=
  Char.ofNat (48 + n)

/-- Fuelled digit printer (structural recursion keeps it kernel-computable);
the fuel is always sufficient when at least the digit count of `n`. -/
def natCharsAux : Nat → Nat → List Char
  | 0, _ => []
  | fuel + 1, n =>
    if n < 10 then [digitChar n]
    else natCharsAux fuel (n / 10) ++ [digitChar (n % 10)]

/-- The decimal digits of a number, most significant first. -/
def natChars (n : Nat) : List Char :=
  natCharsAux (n + 1) n

/-- Zero-pad a digit sequence on the left to width `w`. -/
def padZeros (w : Nat) (s : List Char) : List Char :=
  List.replicate (w - s.length) '0' ++ s

/-- chrono formatting of one strftime item (modelled fragment): `%Y` prints
the zero-padded 4-digit year, `%m` and `%d` the zero-padded 2-digit month and
day. -/
def formatItem (d : ADate) : FmtItem → List Char
  | FmtItem.lit c => [c]
  | FmtItem.year => padZeros 4 (natChars d.year)
  | FmtItem.month => padZeros 2 (natChars d.month)
  | FmtItem.day => padZeros 2 (natChars d.day)

/-- chrono formatting of a parsed item sequence. -/
def formatItems (items : List FmtItem) (d : ADate) : List Char :=
  items.flatMap (formatItem d)

/-- Consume exactly `w` decimal digits, returning the remainder. -/
def takeDigits : Nat → List Char → Option (List Char)
  | 0, s => some s
  | _ + 1, [] => none
  | w + 1, c :: s => if c.isDigit then takeDigits w s else none

/-- chrono `parse_and_remainder` on the modelled fragment: match each item
against the front of the input and return the unconsumed remainder. -/
def parsePrefix : List FmtItem → List Char → Option (List Char)
  | [], s => some s
  | FmtItem.lit _ :: _, [] => none
  | FmtItem.lit c :: items, d :: s =>
    if c == d then parsePrefix items s else none
  | FmtItem.year :: items, s => (takeDigits 4 s).bind (parsePrefix items)
  | FmtItem.month :: items, s => (takeDigits 2 s).bind (parsePrefix items)
  | FmtItem.day :: items, s => (takeDigits 2 s).bind (parsePrefix items)

/-- `Notebook::match_filename` (`src/daily.rs` lines 5–17): parse the format
pattern — `Except.error` models the `expect` panic on an invalid pattern —
then report whether the filename parses as a prefix of that pattern
(trailing characters tolerated). -/
def Notebook.match_filename (nb : Notebook) (filename : String) :
    Except String Bool :=
  match parseStrftime nb.note_format.data with
  | none => Except.error "note format must be a valid strftime string"
  | some items => Except.ok (parsePrefix items filename.data).isSome

/-- The loop body of `match_notebook`: first notebook whose format parses the
filename wins; a panic inside `match_filename` propagates. -/
def matchNotebookGo (filename : String) :
    List Notebook → Except String (Option Notebook)
  | [] => Except.ok none
  | nb :: rest =>
    match nb.match_filename filename with
    | Except.error e => Except.error e
    | Except.ok true => Except.ok (some nb)
    | Except.ok false => matchNotebookGo filename rest

/-- `match_notebook` (`src/daily.rs` lines 19–26): iterate the configured
notebooks in configured order. -/
def match_notebook (context : Settings) (filename : String) :
    Except String (Option Notebook) :=
  matchNotebookGo filename (context.notebooks.map (fun p => p.2))

/-- chrono `Date::format` for a notebook's pattern (external crate, modelled
fragment): formatting panics on an invalid pattern just as parsing does, so
the model returns `none` there. -/
def formatWith (pattern : String) (d : ADate) : Option String :=
  (parseStrftime pattern.data).map (fun items => String.mk (formatItems items d))

/-! ### The `note` command (`src/commands.rs`)

`NaiveDateTime` values are opaque here and stand in as integers; fuzzy
parsing (`fuzzydate::parse`), datetime formatting and the client's
`show_document` response are external and passed as parameters.  The outcome
records the log messages sent, the filesystem operations attempted, and the
returned JSON-RPC result. -/

/-- A JSON-RPC error: code and message. -/
structure RpcError where
  code : Int
  message : String
deriving DecidableEq, Repr

/-- `Error::invalid_params`: code −32602 with the given message. -/
def invalidParams (msg : String) : RpcError :=
  { code := -32602, message := msg }

/-- A filesystem mutation attempted by the command. -/
inductive FsOp where
  | createDirAll (path : String)
  | createNewFile (path : String)
deriving DecidableEq, Repr

/-- The level of a `log_message` call (only `MessageType::ERROR` occurs). -/
inductive MessageKind where
  | error
deriving DecidableEq, Repr

/-- Observable outcome of one `note` invocation. -/
structure NoteOutcome where
  logs : List (MessageKind × String)
  fsOps : List FsOp
  result : Except RpcError (Option Bool)

/-- `datetime_to_file` (`src/commands.rs` lines 12–21): format the datetime,
join under the root, force the `.md` extension and convert to a URL. -/
def datetime_to_file (fmtDT : String → Int → String) (datetime : Int)
    (dailynote_format : String) (root_dir : String) : Option String :=
  let filename := fmtDT dailynote_format datetime
  let path := joinPath root_dir filename
  urlFromFilePath (withExtensionMd path)

/-- Rust `{:?}` rendering of an `Option<&str>`. -/
def debugOptStr : Option String → String
  | some s => "Some(" ++ debugStr s ++ ")"
  | none => "None"

/-- Modelled rendering of `{:?}` applied to `date_str.map(parse)`: the
`Ok`/`Err` payloads are elided, only the constructor shape is kept (none of
the theorems depends on the payload text). -/
def debugParseOutcome (fuzzyParse : String → Option Int) :
    Option String → String
  | none => "None"
  | some s =>
    match fuzzyParse s with
    | some _ => "Some(Ok(..))"
    | none => "Some(Err(..))"

/-- The message of the error returned on a failed date resolution
(`src/commands.rs` lines 71–74): it interpolates the note format twice and
never the raw input. -/
def journalFormatError (note_format : String) : String :=
  "Could not parse journal format (" ++ debugStr note_format ++
    ") as a valid uri: " ++ debugStr note_format ++ "."

/-- The error-level log message of `src/commands.rs` lines 66–69. -/
def noteParseLogMsg (fuzzyParse : String → Option Int)
    (dateStr : Option String) : String :=
  "could not parse " ++ debugOptStr dateStr ++ ": " ++
    debugParseOutcome fuzzyParse dateStr

/-- The target URI resolution of `note` (`src/commands.rs` lines 38–43): an
explicit date string is fuzzy-parsed, otherwise the current local time is
used. -/
def noteFile (fuzzyParse : String → Option Int) (fmtDT : String → Int → String)
    (now : Int) (note_format note_path : String) (dateStr : Option String) :
    Option String :=
  match dateStr with
  | some s => (fuzzyParse s).bind (fun dt =>
      datetime_to_file fmtDT dt note_format note_path)
  | none => datetime_to_file fmtDT now note_format note_path

/-- `note` (`src/commands.rs` lines 23–76): notebook lookup, date resolution,
best-effort directory/file creation, then the client `show_document` round
trip; the two failure paths return invalid-parameter errors. -/
def note (fuzzyParse : String → Option Int) (fmtDT : String → Int → String)
    (now : Int) (showDoc : String → Except RpcError Bool)
    (root_dir : String) (settings : Settings) (notebookName : String)
    (dateStr : Option String) : NoteOutcome :=
  match settings.notebooks.lookup notebookName with
  | none =>
    { logs := []
      fsOps := []
      result := Except.error (invalidParams "Notebook does not exist") }
  | some notebook =>
    let note_format := notebook.note_format
    let note_path := joinPath root_dir notebook.folder
    match noteFile fuzzyParse fmtDT now note_format note_path dateStr with
    | some uri =>
      { logs := []
        fsOps :=
          match urlToFilePath uri with
          | some p =>
            (match parentDir p with
              | some parent => [FsOp.createDirAll parent]
              | none => []) ++ [FsOp.createNewFile p]
          | none => []
        result := (showDoc uri).map some }
    | none =>
      { logs := [(MessageKind.error, noteParseLogMsg fuzzyParse dateStr)]
        fsOps := []
        result := Except.error (invalidParams (journalFormatError note_format)) }

/-! ## Theorems -/

/-! ### C1 — heading tree builder -/

/-- Flattening a cons node: the heading, then the flattened children, then the
later siblings. -/
theorem flattenForest_cons (h : MDHeading) (cs : Option (List Node))
    (rest : List Node) :
    flattenForest (Node.mk h cs :: rest) =
      h :: (flattenForest (cs.getD []) ++ flattenForest rest) := by
  cases cs <;> simp [flattenForest]

/-- Pre-order flattening inverts `construct_tree`, by strong induction on the
input length. -/
theorem preorder_construct_aux : ∀ (n : Nat) (hs : List MDHeading),
    hs.length ≤ n → preorderOpt (construct_tree hs) = hs := by
  intro n
  induction n with
  | zero =>
    intro hs hlen
    have : hs = [] := List.length_eq_zero.mp (Nat.le_zero.mp hlen)
    subst this
    simp [construct_tree, preorderOpt, flattenForest]
  | succ n ih =>
    intro hs hlen
    match hs with
    | [] => simp [construct_tree, preorderOpt, flattenForest]
    | [only] => simp [construct_tree, preorderOpt, flattenForest]
    | first :: second :: tl =>
      rw [construct_tree]
      case x_1 => simp
      cases hidx : ((second :: tl).findIdx?
          (fun heading => heading.level ≤ first.level)) with
      | some index =>
        simp only [preorderOpt, Option.getD_some]
        rw [flattenForest_cons]
        have h1 : ((second :: tl).take index).length ≤ n := by
          have := List.length_take_le index (second :: tl)
          simp at hlen ⊢
          omega
        have h2 : ((second :: tl).drop index).length ≤ n := by
          simp [List.length_drop] at *
          omega
        have e1 := ih ((second :: tl).take index) h1
        have e2 := ih ((second :: tl).drop index) h2
        simp only [preorderOpt] at e1 e2
        rw [e1, e2, List.take_append_drop]
      | none =>
        simp only [preorderOpt, Option.getD_some]
        rw [flattenForest_cons]
        have h2 : (second :: tl).length ≤ n := by
          simp at hlen ⊢; omega
        have e2 := ih (second :: tl) h2
        simp only [preorderOpt] at e2
        simp [flattenForest, e2]

/-- The forest built from a nonempty sequence starts with a node carrying the
first heading. -/
theorem construct_tree_head (x : MDHeading) (xs : List MDHeading) :
    ∃ cs tail, construct_tree (x :: xs) = some (Node.mk x cs :: tail) := by
  match xs with
  | [] => exact ⟨none, [], by simp [construct_tree]⟩
  | y :: l =>
    rw [construct_tree]
    case x_1 => simp
    cases hidx : ((y :: l).findIdx? (fun heading => heading.level ≤ x.level)) with
    | some index => exact ⟨_, _, rfl⟩
    | none => exact ⟨_, [], rfl⟩

/-- C1: for every heading sequence given in document order, the pre-order
traversal of the forest built by `construct_tree` equals the input sequence
exactly; and a heading directly following a strictly lower-level heading
becomes its descendant — in fact the first child of that heading's node —
even when intermediate levels are missing. -/
theorem C1_heading_tree :
    (∀ hs : List MDHeading, preorderOpt (construct_tree hs) = hs) ∧
    (∀ (h1 h2 : MDHeading) (rest : List MDHeading), h1.level < h2.level →
      ∃ cs tail, construct_tree (h1 :: h2 :: rest) =
          some (Node.mk h1 (some cs) :: tail) ∧
        ∃ cs2 ctail, cs = Node.mk h2 cs2 :: ctail) := by
  constructor
  · intro hs
    exact preorder_construct_aux hs.length hs (Nat.le_refl _)
  · intro h1 h2 rest hlt
    rw [construct_tree]
    case x_1 => simp
    cases hidx : ((h2 :: rest).findIdx?
        (fun heading => heading.level ≤ h1.level)) with
    | some index =>
      rw [List.findIdx?_cons, List.findIdx?_succ] at hidx
      have hph2 : decide (h2.level ≤ h1.level) = false := by simp; omega
      rw [hph2] at hidx
      simp only [Bool.false_eq_true, if_false, Option.map_eq_some'] at hidx
      obtain ⟨j, hj, rfl⟩ := hidx
      dsimp only
      rw [List.take_succ_cons]
      obtain ⟨cs2, ctail, heq⟩ := construct_tree_head h2 (rest.take j)
      rw [heq]
      exact ⟨_, _, rfl, cs2, ctail, rfl⟩
    | none =>
      dsimp only
      obtain ⟨cs2, ctail, heq⟩ := construct_tree_head h2 rest
      rw [heq]
      exact ⟨_, [], rfl, cs2, ctail, rfl⟩

/-- A concrete zero range for witness headings. -/
def rng0 : Range :=
  { start := { line := 0, character := 0 }, stop := { line := 0, character := 0 } }

/-- Witness for C1 at a concrete input: a level-3 heading directly following a
level-1 heading (level 2 missing) is pre-order-faithful and becomes the first
child. -/
theorem C1_heading_tree_witness :
    preorderOpt (construct_tree
        [⟨1, "First", rng0⟩, ⟨3, "Third", rng0⟩, ⟨1, "First", rng0⟩]) =
      [⟨1, "First", rng0⟩, ⟨3, "Third", rng0⟩, ⟨1, "First", rng0⟩] ∧
    ((1 : Nat) < 3 ∧
      ∃ cs tail, construct_tree
          (⟨1, "First", rng0⟩ :: ⟨3, "Third", rng0⟩ :: [⟨1, "First", rng0⟩]) =
          some (Node.mk ⟨1, "First", rng0⟩ (some cs) :: tail) ∧
        ∃ cs2 ctail, cs = Node.mk ⟨3, "Third", rng0⟩ cs2 :: ctail) :=
  ⟨C1_heading_tree.1 _,
    by decide,
    C1_heading_tree.2 ⟨1, "First", rng0⟩ ⟨3, "Third", rng0⟩ [⟨1, "First", rng0⟩]
      (by decide)⟩

/-! ### C2, C3 — diagnostics duplicate counts -/

/-- Concrete range at line 2 used by the diagnostics scenarios. -/
def rngA : Range :=
  { start := { line := 2, character := 0 }, stop := { line := 2, character := 7 } }

/-- Concrete range at line 5 used by the diagnostics scenarios. -/
def rngB : Range :=
  { start := { line := 5, character := 0 }, stop := { line := 5, character := 7 } }

/-- A wiki link to `Foo` in file `a.md`. -/
def refFooA : Reference :=
  { kind := RefKind.wikiLink, data := { reference_text := "Foo", range := rngA } }

/-- A wiki link to `Foo` in file `b.md`. -/
def refFooB : Reference :=
  { kind := RefKind.wikiLink, data := { reference_text := "Foo", range := rngB } }

/-- A referenceable that resolves references to `Foo` located in `b.md` only
(the loose predicate may depend on the reference's source path). -/
def ableResolvesB : Referenceable :=
  { variant := RefableVariant.file
    path := "/v/sub/Foo.md"
    range := none
    refname := fun _ => some "sub/Foo"
    is_reference := fun _ r p =>
      p == "/v/b.md" && r.data.reference_text == "Foo"
    matches_reference := fun _ _ _ => false }

/-- Two `Foo` wiki links in two files; the one in `b.md` resolves, the one in
`a.md` does not. -/
def vaultC2 : Vault :=
  { root_dir := "/v"
    files := [("/v/a.md", [refFooA]), ("/v/b.md", [refFooB])]
    referenceables := [ableResolvesB] }

/-- Counterexample to C2 as stated: in `vaultC2` only one vault-wide
*unresolved* reference shares `refFooA`'s kind and target text, so the claim
predicts the message "Unresolved Reference"; the code counts resolved
references too and publishes "Unresolved Reference used 2 times". -/
theorem C2_counterexample :
    specUnresolvedCount vaultC2 "/v/a.md" refFooA = 1 ∧
    diagnostics vaultC2 "/v/a.md" =
      some [{ range := rngA
              message := "Unresolved Reference used 2 times"
              source := some "Obsidian LS"
              severity := some 3 }] := by
  decide

/-- C2 as amended: the message of each published diagnostic is determined by
the number `n` of vault-wide references — resolved or not — sharing the
reference's kind and target text (footnotes counted only within the
reference's own source file): `n > 1` gives "Unresolved Reference used n
times", otherwise "Unresolved Reference"; and exactly one diagnostic with
severity Information (3) is emitted per unresolved reference of the changed
file. -/
theorem C2_diagnostic_messages :
    ∀ (v : Vault) (path : String) (refs : List Reference),
      v.files.lookup path = some refs →
      diagnostics v path =
        some (((refs.map (fun r => (path, r))).filter (isUnresolvedLoose v)).map
          (fun pr =>
            { range := pr.2.data.range
              message :=
                if vaultWideCount v pr.1 pr.2 > 1 then
                  "Unresolved Reference used " ++
                    toString (vaultWideCount v pr.1 pr.2) ++ " times"
                else "Unresolved Reference"
              source := some "Obsidian LS"
              severity := some 3 })) := by
  intro v path refs hlookup
  simp [diagnostics, Vault.selectReferencesFor, hlookup, unresolvedMessage,
    vaultWideCount]

/-- Witness for C2 as amended, at the concrete two-file vault. -/
theorem C2_diagnostic_messages_witness :
    vaultC2.files.lookup "/v/a.md" = some [refFooA] ∧
    diagnostics vaultC2 "/v/a.md" =
      some ((([refFooA].map (fun r => ("/v/a.md", r))).filter
          (isUnresolvedLoose vaultC2)).map
        (fun pr =>
          { range := pr.2.data.range
            message :=
              if vaultWideCount vaultC2 pr.1 pr.2 > 1 then
                "Unresolved Reference used " ++
                  toString (vaultWideCount vaultC2 pr.1 pr.2) ++ " times"
              else "Unresolved Reference"
            source := some "Obsidian LS"
            severity := some 3 })) :=
  ⟨by decide, C2_diagnostic_messages vaultC2 "/v/a.md" [refFooA] (by decide)⟩

/-- Count of references in file `p` sharing `r`'s kind and target text. -/
def sameFileMatchCount (v : Vault) (p : String) (r : Reference) : Nat :=
  (v.allRefPairs.filter (fun pr =>
    pr.1 == p && pr.2.matches_type r &&
      pr.2.data.reference_text == r.data.reference_text)).length

/-- For a footnote reference the code's vault-wide duplicate count degenerates
to the same-file count: occurrences in other files contribute nothing. -/
theorem vaultWideCount_footnote (v : Vault) (p : String) (r : Reference)
    (hkind : r.kind = RefKind.footnote) :
    vaultWideCount v p r = sameFileMatchCount v p r := by
  unfold vaultWideCount sameFileMatchCount
  congr 1
  apply List.filter_congr
  intro pr _
  simp only [countsFor, hkind]
  cases pr.2.matches_type r <;> cases pr.1 == p <;>
    cases pr.2.data.reference_text == r.data.reference_text <;> rfl

/-- C3: two unresolved footnote references with identical target text in two
different source files — each being the only matching occurrence within its
own file — are each assigned a duplicate count of 1, so each diagnostic
message is "Unresolved Reference"; footnote occurrences in other files never
contribute to the count, and the published diagnostic for such a reference
carries exactly that message. -/
theorem C3_footnotes_never_merged :
    ∀ (v : Vault) (pa pb : String) (ra rb : Reference),
      ra.kind = RefKind.footnote → rb.kind = RefKind.footnote →
      ra.data.reference_text = rb.data.reference_text →
      pa ≠ pb →
      sameFileMatchCount v pa ra = 1 →
      sameFileMatchCount v pb rb = 1 →
      vaultWideCount v pa ra = 1 ∧ vaultWideCount v pb rb = 1 ∧
      unresolvedMessage v.allRefPairs pa ra = "Unresolved Reference" ∧
      unresolvedMessage v.allRefPairs pb rb = "Unresolved Reference" ∧
      (∀ refs : List Reference, v.files.lookup pa = some refs → ra ∈ refs →
        isUnresolvedLoose v (pa, ra) = true →
        ∃ ds, diagnostics v pa = some ds ∧
          ({ range := ra.data.range
             message := "Unresolved Reference"
             source := some "Obsidian LS"
             severity := some 3 } : Diagnostic) ∈ ds) := by
  intro v pa pb ra rb hka hkb _htext _hpab hca hcb
  have ea : vaultWideCount v pa ra = 1 := by
    rw [vaultWideCount_footnote v pa ra hka]; exact hca
  have eb : vaultWideCount v pb rb = 1 := by
    rw [vaultWideCount_footnote v pb rb hkb]; exact hcb
  have ma : unresolvedMessage v.allRefPairs pa ra = "Unresolved Reference" := by
    unfold unresolvedMessage
    have : (v.allRefPairs.filter (countsFor pa ra)).length = 1 := ea
    rw [this]
    rfl
  have mb : unresolvedMessage v.allRefPairs pb rb = "Unresolved Reference" := by
    unfold unresolvedMessage
    have : (v.allRefPairs.filter (countsFor pb rb)).length = 1 := eb
    rw [this]
    rfl
  refine ⟨ea, eb, ma, mb, ?_⟩
  intro refs hlookup hmem hunres
  have hd : diagnostics v pa =
      some (((refs.map (fun r => (pa, r))).filter (isUnresolvedLoose v)).map
        (fun pr =>
          { range := pr.2.data.range
            message := unresolvedMessage v.allRefPairs pr.1 pr.2
            source := some "Obsidian LS"
            severity := some 3 })) := by
    simp [diagnostics, Vault.selectReferencesFor, hlookup]
  refine ⟨_, hd, ?_⟩
  rw [List.mem_map]
  refine ⟨(pa, ra), ?_, by rw [ma]⟩
  rw [List.mem_filter]
  exact ⟨List.mem_map.mpr ⟨ra, hmem, rfl⟩, hunres⟩

/-- An unresolved footnote `^note` in file `a.md`. -/
def fnA : Reference :=
  { kind := RefKind.footnote, data := { reference_text := "^note", range := rngA } }

/-- An unresolved footnote `^note` in file `b.md`. -/
def fnB : Reference :=
  { kind := RefKind.footnote, data := { reference_text := "^note", range := rngB } }

/-- A two-file vault holding one unresolved `^note` footnote per file. -/
def vaultC3 : Vault :=
  { root_dir := "/v"
    files := [("/v/a.md", [fnA]), ("/v/b.md", [fnB])]
    referenceables := [] }

/-- Witness for C3 at the concrete two-footnote vault. -/
theorem C3_footnotes_never_merged_witness :
    (fnA.kind = RefKind.footnote ∧ fnB.kind = RefKind.footnote ∧
      fnA.data.reference_text = fnB.data.reference_text ∧
      "/v/a.md" ≠ "/v/b.md" ∧
      sameFileMatchCount vaultC3 "/v/a.md" fnA = 1 ∧
      sameFileMatchCount vaultC3 "/v/b.md" fnB = 1) ∧
    (vaultWideCount vaultC3 "/v/a.md" fnA = 1 ∧
      vaultWideCount vaultC3 "/v/b.md" fnB = 1 ∧
      unresolvedMessage vaultC3.allRefPairs "/v/a.md" fnA = "Unresolved Reference" ∧
      unresolvedMessage vaultC3.allRefPairs "/v/b.md" fnB = "Unresolved Reference" ∧
      (∀ refs : List Reference, vaultC3.files.lookup "/v/a.md" = some refs →
        fnA ∈ refs →
        isUnresolvedLoose vaultC3 ("/v/a.md", fnA) = true →
        ∃ ds, diagnostics vaultC3 "/v/a.md" = some ds ∧
          ({ range := fnA.data.range
             message := "Unresolved Reference"
             source := some "Obsidian LS"
             severity := some 3 } : Diagnostic) ∈ ds)) :=
  ⟨⟨by decide, by decide, by decide, by decide, by decide, by decide⟩,
    C3_footnotes_never_merged vaultC3 "/v/a.md" "/v/b.md" fnA fnB
      (by decide) (by decide) (by decide) (by decide) (by decide) (by decide)⟩

/-! ### C4 — create-file code actions -/

/-- Strings with equal character data are equal. -/
theorem str_ext {a b : String} (h : a.data = b.data) : a = b := by
  cases a; cases b; exact congrArg String.mk h

/-- Data of a string append (definitional, stated for `simp`). -/
theorem strDataAppend (a b : String) : (a ++ b).data = a.data ++ b.data := rfl

/-- The characters of the literal `".md"`. -/
theorem mdData : ".md".data = ('.' :: 'm' :: 'd' :: []) := rfl

/-- The characters of the literal `"/"`. -/
theorem slashData : "/".data = ['/'] := rfl


/-- `findIdx?` on a list whose first satisfying element sits right after a
prefix of non-satisfying ones finds exactly that position. -/
theorem findIdx?_append_cons (p : Char → Bool) :
    ∀ (l1 : List Char) (y : Char) (l2 : List Char),
      (∀ x ∈ l1, p x = false) → p y = true →
      (l1 ++ y :: l2).findIdx? p = some l1.length := by
  intro l1
  induction l1 with
  | nil =>
    intro y l2 _ hy
    simp [List.findIdx?_cons, hy]
  | cons x xs ih =>
    intro y l2 hall hy
    have hx : p x = false := hall x (by simp)
    rw [List.cons_append, List.findIdx?_cons, hx]
    simp only [Bool.false_eq_true, if_false, List.findIdx?_succ]
    rw [ih y l2 (fun z hz => hall z (by simp [hz])) hy]
    rfl

/-- A found index is within bounds. -/
theorem findIdx?_some_lt (p : Char → Bool) :
    ∀ (l : List Char) (k : Nat), l.findIdx? p = some k → k < l.length := by
  intro l
  induction l with
  | nil => intro k h; simp [List.findIdx?] at h
  | cons x xs ih =>
    intro k h
    rw [List.findIdx?_cons, List.findIdx?_succ] at h
    cases hp : p x with
    | true => simp [hp] at h; simp [List.length_cons]; omega
    | false =>
      rw [hp] at h
      simp only [Bool.false_eq_true, if_false, Option.map_eq_some'] at h
      obtain ⟨j, hj, rfl⟩ := h
      have := ih j hj
      simp
      omega

/-- A name without a dot just gets `.md` appended. -/
theorem setExt_no_dot (n : List Char) (h : '.' ∉ n) :
    setExtensionMdName n = n ++ ('.' :: 'm' :: 'd' :: []) := by
  unfold setExtensionMdName
  rw [List.findIdx?_eq_none_iff.mpr ?hnone]
  case hnone =>
    intro x hx
    simp only [beq_eq_false_iff_ne, ne_eq]
    intro heq
    subst heq
    exact h (List.mem_reverse.mp hx)

/-- A name with an extension has it replaced by `md`. -/
theorem setExt_with_ext (stem ext : List Char) (hs : stem ≠ [])
    (he : '.' ∉ ext) :
    setExtensionMdName (stem ++ '.' :: ext) = stem ++ ('.' :: 'm' :: 'd' :: []) := by
  unfold setExtensionMdName
  have hrev : (stem ++ '.' :: ext).reverse = ext.reverse ++ '.' :: stem.reverse := by
    simp
  rw [hrev, findIdx?_append_cons (fun c => c == '.') ext.reverse '.' stem.reverse
    (by intro x hx; simp only [beq_eq_false_iff_ne, ne_eq]; intro hxe; subst hxe;
        exact he (List.mem_reverse.mp hx)) (by simp)]
  dsimp only
  have hlen : (stem ++ '.' :: ext).length = stem.length + 1 + ext.length := by
    simp; omega
  have hlt : ext.reverse.length + 1 < (stem ++ '.' :: ext).length := by
    simp [hlen]
    cases stem with
    | nil => exact absurd rfl hs
    | cons a l => simp; omega
  rw [if_pos hlt]
  have : (stem ++ '.' :: ext).length - ext.reverse.length - 1 = stem.length := by
    simp [hlen]
  rw [this]
  congr 1
  rw [List.take_append_of_le_length (by simp)]
  simp

/-- Forcing the extension below a directory: the last component is rewritten,
the directory part kept. -/
theorem withExtensionMd_join (root s : String) (hne : s.data ≠ [])
    (hslash : '/' ∉ s.data) :
    withExtensionMd (root ++ "/" ++ s) =
      String.mk ((root.data ++ ['/']) ++ setExtensionMdName s.data) := by
  unfold withExtensionMd
  have hdata : (root ++ "/" ++ s).data = (root.data ++ ['/']) ++ s.data := rfl
  rw [hdata]
  dsimp only
  have hrev : ((root.data ++ ['/']) ++ s.data).reverse =
      s.data.reverse ++ '/' :: root.data.reverse := by
    simp
  rw [hrev, findIdx?_append_cons (fun ch => ch == '/') s.data.reverse '/'
    root.data.reverse
    (by intro x hx; simp only [beq_eq_false_iff_ne, ne_eq]; intro hxe; subst hxe;
        exact hslash (List.mem_reverse.mp hx)) (by simp)]
  dsimp only
  have hcut : ((root.data ++ ['/']) ++ s.data).length - s.data.reverse.length =
      (root.data ++ ['/']).length := by
    simp
    omega
  rw [hcut, List.drop_left, List.take_left]
  rw [if_neg hne]

/-- Absoluteness survives joining a component under an absolute root. -/
theorem isAbsolute_joinPath (root t : String) (h : isAbsolute root = true) :
    isAbsolute (joinPath root t) = true := by
  unfold joinPath
  by_cases ht : isAbsolute t = true
  · rw [if_pos ht]; exact ht
  · rw [if_neg ht]
    unfold isAbsolute at h ⊢
    cases hroot : root.data with
    | nil => rw [hroot] at h; simp at h
    | cons c tl =>
      rw [hroot] at h
      have : (root ++ "/" ++ t).data = root.data ++ ('/' :: t.data) := by
        simp [strDataAppend, slashData]
      rw [this, hroot]
      exact h

/-- Forcing the `.md` extension keeps an absolute path absolute. -/
theorem isAbsolute_withExtensionMd (p : String) (h : isAbsolute p = true) :
    isAbsolute (withExtensionMd p) = true := by
  obtain ⟨tl, hdata⟩ : ∃ tl, p.data = '/' :: tl := by
    unfold isAbsolute at h
    cases hd : p.data with
    | nil => rw [hd] at h; simp at h
    | cons c tl =>
      rw [hd] at h
      simp at h
      exact ⟨tl, by rw [h]⟩
  unfold withExtensionMd
  dsimp only
  split
  case h_1 k hidx =>
    split
    case isTrue hdrop => exact h
    case isFalse hdrop =>
      have hk : k < p.data.length := by
        have := findIdx?_some_lt _ _ _ hidx
        simpa using this
      have hc : ∃ m, p.data.length - k = m + 1 := ⟨p.data.length - k - 1, by omega⟩
      obtain ⟨m, hm⟩ := hc
      rw [hm, hdata]
      simp [isAbsolute, List.take_succ_cons, List.cons_append]
  case h_2 hidx =>
    exfalso
    have hall := List.findIdx?_eq_none_iff.mp hidx '/'
      (List.mem_reverse.mpr (by rw [hdata]; simp))
    simp at hall

/-- Diffing two equally-absolute paths always succeeds. -/
theorem diffPaths_isSome (a b : String) (h : isAbsolute a = isAbsolute b) :
    ∃ r, diffPaths a b = some r := by
  unfold diffPaths
  rw [if_pos h]
  by_cases hp : (b ++ "/").data.isPrefixOf a.data = true
  · rw [if_pos hp]; exact ⟨_, rfl⟩
  · rw [if_neg hp]; exact ⟨_, rfl⟩

/-- Mapping a projection over a `filterMap` that never drops equals mapping
the composite directly. -/
theorem filterMap_total_map {α β γ : Type} (f : α → Option β) (proj : β → γ)
    (g : α → γ) (hf : ∀ a, ∃ b, f a = some b ∧ proj b = g a) :
    ∀ l : List α, (l.filterMap f).map proj = l.map g := by
  intro l
  induction l with
  | nil => rfl
  | cons x xs ih =>
    obtain ⟨b, hb, hproj⟩ := hf x
    simp [List.filterMap_cons, hb, ih, hproj]

/-- A nonempty string without `/` is a relative path. -/
theorem isAbsolute_false_of_no_slash (s : String) (hne : s.data ≠ [])
    (hslash : '/' ∉ s.data) : isAbsolute s = false := by
  unfold isAbsolute
  cases hd : s.data with
  | nil => exact absurd hd hne
  | cons c tl =>
    simp only [beq_eq_false_iff_ne, ne_eq]
    intro hc
    rw [hc] at hd
    exact hslash (hd ▸ List.mem_cons_self _ _)

/-- Joining a relative component appends it under the root. -/
theorem joinPath_rel (root t : String) (ht : isAbsolute t = false) :
    joinPath root t = root ++ "/" ++ t := by
  unfold joinPath
  rw [if_neg (by rw [ht]; simp)]

/-- C4: in the requested file, a reference yields a create-file action iff it
passes the candidate filter (strictly unresolved, anchor-free, starting on the
requested line and spanning the requested columns), every candidate yields
exactly one action whose single create-file edit targets
`root/<target_text>` with the extension forced to `.md`, and the forcing
appends `.md` to an extensionless target and replaces an extension already
present. -/
theorem C4_code_actions :
    ∀ (v : Vault) (params : CodeActionParams) (path : String)
      (refs : List Reference),
      isAbsolute v.root_dir = true →
      v.files.lookup path = some refs →
      (∃ acts, code_actions v params path = some acts ∧
        acts.map (fun a => a.createFileUri) =
          ((refs.map (fun r => (path, r))).filter (isCandidate v params)).map
            (fun pr =>
              withExtensionMd (joinPath v.root_dir pr.2.data.reference_text))) ∧
      (∀ s : String, s.data ≠ [] → '/' ∉ s.data → '.' ∉ s.data →
        withExtensionMd (joinPath v.root_dir s) = v.root_dir ++ "/" ++ s ++ ".md") ∧
      (∀ stem ext : String, stem.data ≠ [] → '/' ∉ stem.data →
        '/' ∉ ext.data → '.' ∉ ext.data →
        withExtensionMd (joinPath v.root_dir (stem ++ "." ++ ext)) =
          v.root_dir ++ "/" ++ stem ++ ".md") := by
  intro v params path refs hroot hlookup
  refine ⟨?_, ?_, ?_⟩
  · have hf : ∀ pr : String × Reference,
        ∃ act : CodeAction,
          ((urlFromFilePath
              (withExtensionMd (joinPath v.root_dir pr.2.data.reference_text))).bind
            (fun new_path =>
              (diffPaths (withExtensionMd (joinPath v.root_dir pr.2.data.reference_text))
                  v.root_dir).map
                (fun rel =>
                  { title := "Create File: " ++ debugStr rel
                    createFileUri := new_path }))) = some act ∧
          act.createFileUri =
            withExtensionMd (joinPath v.root_dir pr.2.data.reference_text) := by
      intro pr
      have habs : isAbsolute
          (withExtensionMd (joinPath v.root_dir pr.2.data.reference_text)) = true :=
        isAbsolute_withExtensionMd _ (isAbsolute_joinPath _ _ hroot)
      have hurl : urlFromFilePath
          (withExtensionMd (joinPath v.root_dir pr.2.data.reference_text)) =
          some (withExtensionMd (joinPath v.root_dir pr.2.data.reference_text)) := by
        unfold urlFromFilePath
        rw [if_pos habs]
      obtain ⟨r, hr⟩ := diffPaths_isSome
        (withExtensionMd (joinPath v.root_dir pr.2.data.reference_text))
        v.root_dir (by rw [habs, hroot])
      exact ⟨{ title := "Create File: " ++ debugStr r
               createFileUri :=
                 withExtensionMd (joinPath v.root_dir pr.2.data.reference_text) },
        by rw [hurl]; simp [hr], rfl⟩
    unfold code_actions Vault.selectReferencesFor
    rw [hlookup]
    simp only [Option.map_some', Option.some_bind]
    exact ⟨_, rfl, filterMap_total_map _ _ _ hf _⟩
  · intro s hne hslash hdot
    rw [joinPath_rel _ _ (isAbsolute_false_of_no_slash s hne hslash),
      withExtensionMd_join v.root_dir s hne hslash, setExt_no_dot s.data hdot]
    apply str_ext
    simp [strDataAppend, mdData, slashData]
  · intro stem ext hs hstem hext hdot
    have hsdata : (stem ++ "." ++ ext).data = stem.data ++ '.' :: ext.data := by
      simp [strDataAppend]
    have hne : (stem ++ "." ++ ext).data ≠ [] := by
      rw [hsdata]
      cases hd : stem.data with
      | nil => exact absurd hd hs
      | cons c tl => simp
    have hslash : '/' ∉ (stem ++ "." ++ ext).data := by
      rw [hsdata]
      intro hmem
      rcases List.mem_append.mp hmem with h1 | h2
      · exact hstem h1
      · rcases List.mem_cons.mp h2 with h3 | h4
        · exact absurd h3 (by decide)
        · exact hext h4
    rw [joinPath_rel _ _ (isAbsolute_false_of_no_slash _ hne hslash),
      withExtensionMd_join v.root_dir _ hne hslash, hsdata,
      setExt_with_ext stem.data ext.data hs hdot]
    apply str_ext
    simp [strDataAppend, mdData, slashData]

/-- An unresolved wiki link `note.txt` spanning columns 4–14 of line 0. -/
def refNote : Reference :=
  { kind := RefKind.wikiLink
    data := { reference_text := "note.txt"
              range := { start := { line := 0, character := 4 }
                         stop := { line := 0, character := 14 } } } }

/-- A one-file vault with no referenceables, so `refNote` is strictly
unresolved. -/
def vaultC4 : Vault :=
  { root_dir := "/v"
    files := [("/v/a.md", [refNote])]
    referenceables := [] }

/-- A requested range inside `refNote`'s span. -/
def paramsC4 : CodeActionParams :=
  { range := { start := { line := 0, character := 5 }
               stop := { line := 0, character := 10 } } }

/-- Witness for C4 at the concrete vault: the candidate with target
`note.txt` yields one action creating `/v/note.md`. -/
theorem C4_code_actions_witness :
    (isAbsolute vaultC4.root_dir = true ∧
      vaultC4.files.lookup "/v/a.md" = some [refNote]) ∧
    ((∃ acts, code_actions vaultC4 paramsC4 "/v/a.md" = some acts ∧
        acts.map (fun a => a.createFileUri) =
          (([refNote].map (fun r => ("/v/a.md", r))).filter
              (isCandidate vaultC4 paramsC4)).map
            (fun pr =>
              withExtensionMd (joinPath vaultC4.root_dir
                pr.2.data.reference_text)))) :=
  ⟨⟨by decide, by decide⟩,
    (C4_code_actions vaultC4 paramsC4 "/v/a.md" [refNote]
      (by decide) (by decide)).1⟩

/-! ### C5, C6 — workspace symbols -/

/-- Weekday names anchored so that day number 0 falls on a Thursday (the
anchor chrono's day arithmetic induces for 1970-01-01). -/
def weekdayNames : List String :=
  ["Thursday", "Friday", "Saturday", "Sunday", "Monday", "Tuesday", "Wednesday"]

/-- A concrete chrono `format` model covering the two patterns the symbols
code uses in the counterexample scenarios: `%A` renders the weekday name, and
a pattern without specifiers (such as `daily`) renders itself. -/
def fmtDaily : String → Int → String :=
  fun pattern date =>
    if pattern = "%A" then weekdayNames.getD (date % 7).toNat "Thursday"
    else pattern

/-- Counterexample to C5 as stated: with the literal daily-note format
`daily` — for which every date formats to the relative path `daily`, whose
URL conversion fails — the result contains no synthetic date entry at all,
although the claim demands one per offset in `[-7, 7]`. -/
theorem C5_counterexample :
    workspace_symbol fmtDaily "daily"
      { root_dir := "/v", files := [], referenceables := [] } 0 = some [] := by
  decide

/-- The claim's deterministic relative-date phrase for an offset in
`[-7, 7]`. -/
def claimLabel (fmt : String → Int → String) (today i : Int) : String :=
  if i = 0 then "today"
  else if i = 1 then "tomorrow"
  else if i = -1 then "yesterday"
  else if 2 ≤ i ∧ i ≤ 7 then "next " ++ fmt "%A" (today + i)
  else "last " ++ fmt "%A" (today + i)

/-- `relative_date_string` at `today + i`, reduced to conditions on the
offset `i`. -/
theorem relative_date_string_offset (fmt : String → Int → String)
    (today i : Int) :
    relative_date_string fmt today (today + i) =
      (if i = 0 then some "today"
       else if i = 1 then some "tomorrow"
       else if 2 ≤ i ∧ i ≤ 7 then some ("next " ++ fmt "%A" (today + i))
       else if i = -1 then some "yesterday"
       else if -7 ≤ i ∧ i ≤ -1 then some ("last " ++ fmt "%A" (today + i))
       else none) := by
  unfold relative_date_string
  by_cases hi : i = 0
  · subst hi
    simp
  · have hne : ¬ (today = today + i) := by omega
    rw [if_neg hne, if_neg hi]
    dsimp only
    have hd : today + i - today = i := by omega
    rw [hd]

/-- A `filterMap` that succeeds on every member is the corresponding map. -/
theorem filterMap_eq_map_of_mem {α β : Type} (f : α → Option β) (g : α → β) :
    ∀ l : List α, (∀ a ∈ l, f a = some (g a)) → l.filterMap f = l.map g := by
  intro l
  induction l with
  | nil => intro _; rfl
  | cons x xs ih =>
    intro h
    rw [List.filterMap_cons, h x (by simp), List.map_cons,
      ih (fun a ha => h a (by simp [ha]))]

/-- The expected synthetic entry for the date `today + i`. -/
def expectedDateEntry (fmt : String → Int → String) (dailynote : String)
    (today i : Int) : SymbolInformation :=
  { name := claimLabel fmt today i ++ ": " ++ fmt dailynote (today + i)
    kind := SymbolKind.file
    location :=
      { uri := fmt dailynote (today + i)
        range := { start := { line := 0, character := 0 }
                   stop := { line := 0, character := 1 } } } }

/-- C5 as amended: whenever the formatted daily-note filename of each date in
the window converts to a file URL (is an absolute path), the workspace-symbol
result is the referenceable-derived entries followed by exactly one synthetic
entry per integer day offset in `[-7, 7]`, in offset order, each labeled by
the deterministic relative-date phrase (0 → today, 1 → tomorrow, −1 →
yesterday, [2,7] → next weekday, [−7,−2] → last weekday) and carrying the
filename formatted by the configured daily-note pattern. -/
theorem C5_workspace_dates :
    ∀ (fmt : String → Int → String) (dailynote : String) (v : Vault)
      (today : Int),
      (∀ i : Int, -7 ≤ i → i ≤ 7 →
        isAbsolute (fmt dailynote (today + i)) = true) →
      workspace_symbol fmt dailynote v today =
        some (v.referenceables.filterMap (mkRefSymbol v) ++
          dayOffsets.map (expectedDateEntry fmt dailynote today)) := by
  intro fmt dailynote v today habs
  unfold workspace_symbol
  dsimp only
  congr 2
  apply filterMap_eq_map_of_mem
  intro i hi
  have hurl : urlFromFilePath (fmt dailynote (today + i)) =
      some (fmt dailynote (today + i)) := by
    unfold urlFromFilePath
    rw [if_pos (habs i (by fin_cases hi <;> norm_num) (by fin_cases hi <;> norm_num))]
  have hurl0 : urlFromFilePath (fmt dailynote today) =
      some (fmt dailynote today) := by
    have h0 := habs 0 (by norm_num) (by norm_num)
    rw [add_zero] at h0
    unfold urlFromFilePath
    rw [if_pos h0]
  unfold mkDateSymbol date_to_match_string date_to_filename expectedDateEntry
  rw [relative_date_string_offset]
  fin_cases hi <;> norm_num <;>
    simp [hurl, hurl0, claimLabel, Option.bind, Option.map]

/-- Witness for C5 as amended: with the literal absolute daily-note pattern
`/notes/d`, all fifteen date entries appear after the (empty) referenceable
entries. -/
theorem C5_workspace_dates_witness :
    (∀ i : Int, -7 ≤ i → i ≤ 7 →
      isAbsolute (fmtDaily "/notes/d" ((0 : Int) + i)) = true) ∧
    workspace_symbol fmtDaily "/notes/d"
        { root_dir := "/v", files := [], referenceables := [] } 0 =
      some (({ root_dir := "/v", files := [], referenceables := [] } :
            Vault).referenceables.filterMap
          (mkRefSymbol { root_dir := "/v", files := [], referenceables := [] }) ++
        dayOffsets.map (expectedDateEntry fmtDaily "/notes/d" 0)) :=
  ⟨fun _ _ _ => rfl,
    C5_workspace_dates fmtDaily "/notes/d"
      { root_dir := "/v", files := [], referenceables := [] } 0
      (fun _ _ _ => rfl)⟩

/-- A file referenceable for the range counterexample. -/
def ableC6 : Referenceable :=
  { variant := RefableVariant.file
    path := "/v/a.md"
    range := none
    refname := fun _ => some "a"
    is_reference := fun _ _ _ => false
    matches_reference := fun _ _ _ => false }

/-- Counterexample to C6 as stated: the entry derived from a File
referenceable has range `(0,0)–(0,1)`, whose start and end differ, so the
range is not zero-width. -/
theorem C6_counterexample :
    workspace_symbol fmtDaily "daily"
        { root_dir := "/v", files := [], referenceables := [ableC6] } 0 =
      some [{ name := "a"
              kind := SymbolKind.file
              location :=
                { uri := "/v/a.md"
                  range := { start := { line := 0, character := 0 }
                             stop := { line := 0, character := 1 } } } }] ∧
    ({ line := 0, character := 0 } : Position) ≠ { line := 0, character := 1 } := by
  constructor
  · decide
  · decide

/-- C6 as amended: every workspace-symbol entry derived from a File-variant
referenceable is assigned the fixed one-character range from `(0,0)` to
`(0,1)` at the start of the document (not a zero-width range), and such an
entry appears among the referenceable-derived entries of the result. -/
theorem C6_file_symbol_range :
    ∀ (v : Vault) (able : Referenceable) (si : SymbolInformation)
      (fmt : String → Int → String) (dailynote : String) (today : Int)
      (ds : List SymbolInformation),
      able.variant = RefableVariant.file →
      able ∈ v.referenceables →
      mkRefSymbol v able = some si →
      workspace_symbol fmt dailynote v today = some ds →
      si ∈ ds ∧
      si.location.range =
        { start := { line := 0, character := 0 }
          stop := { line := 0, character := 1 } } ∧
      si.location.range.start ≠ si.location.range.stop := by
  intro v able si fmt dailynote today ds hvar hmem hsome hws
  have hrange : si.location.range =
      { start := { line := 0, character := 0 }
        stop := { line := 0, character := 1 } } := by
    unfold mkRefSymbol at hsome
    rw [hvar] at hsome
    dsimp only at hsome
    rw [Option.some_bind] at hsome
    rcases hname : able.refname v.root_dir with _ | name <;> rw [hname] at hsome
    · simp at hsome
    · rw [Option.some_bind] at hsome
      rcases hurl : urlFromFilePath able.path with _ | uri <;> rw [hurl] at hsome
      · simp at hsome
      · rw [Option.map_some'] at hsome
        cases hsome
        rfl
  refine ⟨?_, hrange, by rw [hrange]; decide⟩
  unfold workspace_symbol at hws
  rw [Option.some.injEq] at hws
  subst hws
  exact List.mem_append_left _ (List.mem_filterMap.mpr ⟨able, hmem, hsome⟩)

/-- The symbol entry derived from `ableC6`. -/
def siC6 : SymbolInformation :=
  { name := "a"
    kind := SymbolKind.file
    location :=
      { uri := "/v/a.md"
        range := { start := { line := 0, character := 0 }
                   stop := { line := 0, character := 1 } } } }

/-- Witness for C6 as amended, at the concrete one-file vault. -/
theorem C6_file_symbol_range_witness :
    (ableC6.variant = RefableVariant.file ∧
      ableC6 ∈ ({ root_dir := "/v", files := [], referenceables := [ableC6] } :
        Vault).referenceables ∧
      mkRefSymbol { root_dir := "/v", files := [], referenceables := [ableC6] }
        ableC6 = some siC6 ∧
      workspace_symbol fmtDaily "daily"
        { root_dir := "/v", files := [], referenceables := [ableC6] } 0 =
        some [siC6]) ∧
    (siC6 ∈ [siC6] ∧
      siC6.location.range =
        { start := { line := 0, character := 0 }
          stop := { line := 0, character := 1 } } ∧
      siC6.location.range.start ≠ siC6.location.range.stop) :=
  ⟨⟨rfl, List.mem_singleton.mpr rfl, rfl, by decide⟩,
    C6_file_symbol_range
      { root_dir := "/v", files := [], referenceables := [ableC6] }
      ableC6 siC6 fmtDaily "daily" 0 [siC6]
      rfl (List.mem_singleton.mpr rfl) rfl (by decide)⟩

/-! ### C7, C9 — notebook matching -/

/-- The character printed for a digit is a digit character. -/
theorem digitChar_isDigit (n : Nat) (h : n < 10) : (digitChar n).isDigit = true := by
  interval_cases n <;> decide

/-- Every printed character is a digit. -/
theorem natCharsAux_digits : ∀ (fuel n : Nat), ∀ c ∈ natCharsAux fuel n,
    c.isDigit = true := by
  intro fuel
  induction fuel with
  | zero => intro n c hc; simp [natCharsAux] at hc
  | succ fuel ih =>
    intro n c hc
    unfold natCharsAux at hc
    by_cases hn : n < 10
    · rw [if_pos hn] at hc
      simp at hc
      subst hc
      exact digitChar_isDigit n hn
    · rw [if_neg hn] at hc
      rcases List.mem_append.mp hc with h1 | h2
      · exact ih _ c h1
      · simp at h2
        subst h2
        exact digitChar_isDigit _ (Nat.mod_lt _ (by omega))

/-- A number below `10 ^ w` prints in at most `w` digits. -/
theorem natCharsAux_length : ∀ (fuel : Nat) (w n : Nat), 1 ≤ w → n < 10 ^ w →
    (natCharsAux fuel n).length ≤ w := by
  intro fuel
  induction fuel with
  | zero => intro w n _ _; simp [natCharsAux]
  | succ fuel ih =>
    intro w n hw hn
    unfold natCharsAux
    by_cases h10 : n < 10
    · rw [if_pos h10]; simpa using hw
    · rw [if_neg h10]
      match w with
      | 1 => exfalso; simp at hn; omega
      | w' + 2 =>
        have hdiv : n / 10 < 10 ^ (w' + 1) := by
          rw [Nat.div_lt_iff_lt_mul (by omega)]
          calc n < 10 ^ (w' + 2) := hn
          _ = 10 ^ (w' + 1) * 10 := by ring
        have := ih (w' + 1) (n / 10) (by omega) hdiv
        simp
        omega

/-- Padding to a width at least the content's length gives exactly that
width. -/
theorem padZeros_length (w : Nat) (s : List Char) (h : s.length ≤ w) :
    (padZeros w s).length = w := by
  simp [padZeros]
  omega

/-- Zero-padding keeps every character a digit. -/
theorem padZeros_digits (w : Nat) (s : List Char)
    (h : ∀ c ∈ s, c.isDigit = true) :
    ∀ c ∈ padZeros w s, c.isDigit = true := by
  intro c hc
  rcases List.mem_append.mp hc with h1 | h2
  · have := List.eq_of_mem_replicate h1
    subst this
    decide
  · exact h c h2

/-- Consuming exactly the length of an all-digit block succeeds and leaves
the rest. -/
theorem takeDigits_exact : ∀ (l rest : List Char),
    (∀ c ∈ l, c.isDigit = true) → takeDigits l.length (l ++ rest) = some rest := by
  intro l
  induction l with
  | nil => intro rest _; rfl
  | cons c l ih =>
    intro rest h
    have hc : c.isDigit = true := h c (by simp)
    simp only [List.length_cons, List.cons_append]
    rw [takeDigits, if_pos hc]
    exact ih rest (fun x hx => h x (by simp [hx]))

/-- A zero-padded number of bounded size parses back as exactly its width. -/
theorem takeDigits_pad (w n : Nat) (hw : 1 ≤ w) (hn : n < 10 ^ w)
    (tail : List Char) :
    takeDigits w (padZeros w (natChars n) ++ tail) = some tail := by
  have hlen : (padZeros w (natChars n)).length = w :=
    padZeros_length w _ (natCharsAux_length _ w n hw hn)
  have hdig : ∀ c ∈ padZeros w (natChars n), c.isDigit = true :=
    padZeros_digits w _ (natCharsAux_digits _ n)
  have := takeDigits_exact (padZeros w (natChars n)) tail hdig
  rwa [hlen] at this

/-- Round trip of the strftime model: parsing a formatted date as a prefix
always succeeds and leaves exactly the trailing characters. -/
theorem parsePrefix_format : ∀ (items : List FmtItem) (d : ADate)
    (rest : List Char), d.year < 10000 → d.month < 100 → d.day < 100 →
    parsePrefix items (formatItems items d ++ rest) = some rest := by
  intro items
  induction items with
  | nil => intro d rest _ _ _; rfl
  | cons i is ih =>
    intro d rest hy hm hd
    have hsplit : formatItems (i :: is) d ++ rest =
        formatItem d i ++ (formatItems is d ++ rest) := by
      simp [formatItems, List.flatMap_cons, List.append_assoc]
    rw [hsplit]
    cases i with
    | lit c =>
      simp only [formatItem, List.singleton_append]
      rw [parsePrefix, if_pos (by simp)]
      exact ih d rest hy hm hd
    | year =>
      simp only [formatItem]
      rw [parsePrefix, takeDigits_pad 4 d.year (by omega) (by norm_num; omega) _]
      simp only [Option.some_bind]
      exact ih d rest hy hm hd
    | month =>
      simp only [formatItem]
      rw [parsePrefix, takeDigits_pad 2 d.month (by omega) (by norm_num; omega) _]
      simp only [Option.some_bind]
      exact ih d rest hy hm hd
    | day =>
      simp only [formatItem]
      rw [parsePrefix, takeDigits_pad 2 d.day (by omega) (by norm_num; omega) _]
      simp only [Option.some_bind]
      exact ih d rest hy hm hd

/-- Iterating the notebooks: the first match after a prefix of non-matching
notebooks wins. -/
theorem matchNotebookGo_prefix (filename : String) :
    ∀ (pre : List Notebook) (nb : Notebook) (post : List Notebook),
      (∀ x ∈ pre, x.match_filename filename = Except.ok false) →
      nb.match_filename filename = Except.ok true →
      matchNotebookGo filename (pre ++ nb :: post) = Except.ok (some nb) := by
  intro pre
  induction pre with
  | nil =>
    intro nb post _ hnb
    rw [List.nil_append, matchNotebookGo, hnb]
  | cons x xs ih =>
    intro nb post hall hnb
    rw [List.cons_append, matchNotebookGo, hall x (by simp)]
    exact ih nb post (fun z hz => hall z (by simp [hz])) hnb

/-- Counterexample configuration for the round trip: a notebook whose literal
format is a strict prefix of a later notebook's literal format. -/
def nbX : Notebook :=
  { folder := "journal", note_format := "x" }

/-- The later notebook with literal format `xy`. -/
def nbXY : Notebook :=
  { folder := "journal", note_format := "xy" }

/-- Settings configuring `nbX` before `nbXY`. -/
def settingsC7 : Settings :=
  { dailynote := "%Y-%m-%d", notebooks := [("a", nbX), ("b", nbXY)] }

/-- A concrete date. -/
def dC7 : ADate :=
  { year := 2026, month := 10, day := 12 }

/-- Counterexample to C7 as stated: formatting today with `nbXY`'s pattern
gives `xy`, but `match_notebook` returns the first-configured `nbX`, whose
format `x` already parses the prefix — not the formatting notebook. -/
theorem C7_counterexample :
    formatWith nbXY.note_format dC7 = some "xy" ∧
    match_notebook settingsC7 "xy" = Except.ok (some nbX) ∧
    nbX ≠ nbXY := by
  refine ⟨by decide, rfl, by decide⟩

/-- C7 as amended: formatting a date with a configured notebook's pattern and
matching the result returns that notebook *provided no earlier-configured
notebook's format parses the formatted filename*; under ambiguity the
first-configured match wins, so the round trip can return an earlier
notebook instead. -/
theorem C7_match_roundtrip :
    ∀ (settings : Settings) (name : String) (nb : Notebook) (d : ADate)
      (pre post : List (String × Notebook)) (fn : String),
      settings.notebooks = pre ++ (name, nb) :: post →
      formatWith nb.note_format d = some fn →
      d.year < 10000 → d.month < 100 → d.day < 100 →
      (∀ p ∈ pre, (p.2).match_filename fn = Except.ok false) →
      match_notebook settings fn = Except.ok (some nb) := by
  intro settings name nb d pre post fn hnbs hfmt hy hm hd hpre
  obtain ⟨items, hitems, hfn⟩ :
      ∃ items, parseStrftime nb.note_format.data = some items ∧
        fn = String.mk (formatItems items d) := by
    unfold formatWith at hfmt
    rcases hp : parseStrftime nb.note_format.data with _ | items <;>
      rw [hp] at hfmt
    · simp at hfmt
    · rw [Option.map_some'] at hfmt
      cases hfmt
      exact ⟨items, rfl, rfl⟩
  have hmatch : nb.match_filename fn = Except.ok true := by
    unfold Notebook.match_filename
    rw [hitems, hfn]
    have : parsePrefix items (formatItems items d) = some [] := by
      have := parsePrefix_format items d [] hy hm hd
      rwa [List.append_nil] at this
    simp [this]
  unfold match_notebook
  rw [hnbs, List.map_append, List.map_cons]
  exact matchNotebookGo_prefix fn (pre.map (fun p => p.2)) nb
    (post.map (fun p => p.2))
    (fun x hx => by
      obtain ⟨p, hp, rfl⟩ := List.mem_map.mp hx
      exact hpre p hp)
    hmatch

/-- A well-formed single-notebook configuration. -/
def nbDailyC7 : Notebook :=
  { folder := "journal", note_format := "%Y-%m-%d" }

/-- Settings holding only `nbDailyC7`. -/
def settingsC7w : Settings :=
  { dailynote := "%Y-%m-%d", notebooks := [("daily", nbDailyC7)] }

/-- Witness for C7 as amended: the single configured notebook round-trips
through its formatted date `2026-10-12`. -/
theorem C7_match_roundtrip_witness :
    (settingsC7w.notebooks = [] ++ ("daily", nbDailyC7) :: [] ∧
      formatWith nbDailyC7.note_format dC7 = some "2026-10-12" ∧
      dC7.year < 10000 ∧ dC7.month < 100 ∧ dC7.day < 100 ∧
      (∀ p ∈ ([] : List (String × Notebook)),
        (p.2).match_filename "2026-10-12" = Except.ok false)) ∧
    match_notebook settingsC7w "2026-10-12" = Except.ok (some nbDailyC7) :=
  ⟨⟨rfl, by decide, by decide, by decide, by decide, fun p hp => absurd hp (by simp)⟩,
    C7_match_roundtrip settingsC7w "daily" nbDailyC7 dC7 [] [] "2026-10-12"
      rfl (by decide) (by decide) (by decide) (by decide)
      (fun p hp => absurd hp (by simp))⟩

/-- With every configured format valid, the notebook loop never errors. -/
theorem matchNotebookGo_total (filename : String) :
    ∀ nbs : List Notebook,
      (∀ nb ∈ nbs, (parseStrftime nb.note_format.data).isSome = true) →
      ∃ r, matchNotebookGo filename nbs = Except.ok r := by
  intro nbs
  induction nbs with
  | nil => intro _; exact ⟨none, rfl⟩
  | cons nb rest ih =>
    intro h
    obtain ⟨items, hitems⟩ :=
      Option.isSome_iff_exists.mp (h nb (by simp))
    have hmf : nb.match_filename filename =
        Except.ok (parsePrefix items filename.data).isSome := by
      unfold Notebook.match_filename
      rw [hitems]
    rw [matchNotebookGo, hmf]
    cases (parsePrefix items filename.data).isSome with
    | true => exact ⟨some nb, rfl⟩
    | false => exact ih (fun z hz => h z (by simp [hz]))

/-- C9 as amended: for every settings value all of whose configured
note-format strings are valid strftime patterns and every filename,
`match_notebook` returns normally with some notebook or none; a format that
fails to parse the filename is treated as no match.  (An *invalid* pattern,
by contrast, hits the `expect` panic modelled as the error case.) -/
theorem C9_match_notebook_total :
    ∀ (settings : Settings) (filename : String),
      (∀ p ∈ settings.notebooks,
        (parseStrftime (p.2).note_format.data).isSome = true) →
      ∃ r, match_notebook settings filename = Except.ok r := by
  intro settings filename h
  unfold match_notebook
  exact matchNotebookGo_total filename _
    (fun nb hnb => by
      obtain ⟨p, hp, rfl⟩ := List.mem_map.mp hnb
      exact h p hp)

/-- A notebook whose format is the invalid pattern `%`. -/
def nbBad : Notebook :=
  { folder := "journal", note_format := "%" }

/-- Settings configuring the invalid-format notebook. -/
def settingsC9 : Settings :=
  { dailynote := "%Y-%m-%d", notebooks := [("bad", nbBad)] }

/-- Counterexample to C9 as stated: with the invalid strftime pattern `%`
configured, `match_notebook` does not return a result at all — it hits the
`expect` panic of `Notebook::match_filename` (modelled as the error value),
so not every settings value is safe. -/
theorem C9_counterexample :
    match_notebook settingsC9 "2026" =
      Except.error "note format must be a valid strftime string" := rfl

/-- Witness for C9 as amended, at a concrete valid configuration and a
filename none of the formats parse. -/
theorem C9_match_notebook_total_witness :
    (∀ p ∈ settingsC7w.notebooks,
      (parseStrftime (p.2).note_format.data).isSome = true) ∧
    (∃ r, match_notebook settingsC7w "nota-date" = Except.ok r) :=
  ⟨by decide, C9_match_notebook_total settingsC7w "nota-date" (by decide)⟩

/-! ### C8, C10 — the `note` command -/

/-- A fuzzy parser that rejects every input (models `fuzzydate::parse`
failing). -/
def fuzzyNone : String → Option Int :=
  fun _ => none

/-- A datetime formatter for literal patterns (unused on failure paths). -/
def fmtDTLit : String → Int → String :=
  fun pattern _ => pattern

/-- A client whose `show_document` acknowledges with success. -/
def showOk : String → Except RpcError Bool :=
  fun _ => Except.ok true

/-- Settings with one notebook whose format is `%Y-%m-%d`. -/
def settingsC8 : Settings :=
  { dailynote := "%Y-%m-%d", notebooks := [("j", nbDailyC7)] }

set_option maxRecDepth 8000 in
/-- Counterexample to C8 as stated: on a failed parse of `blah` the returned
invalid-parameter error message interpolates the configured format twice but
does not contain the raw input; the raw input appears only in the error-level
log message. -/
theorem C8_counterexample :
    (note fuzzyNone fmtDTLit 0 showOk "/root" settingsC8 "j" (some "blah")).result =
      Except.error
        { code := -32602
          message :=
            "Could not parse journal format (\"%Y-%m-%d\") as a valid uri: \"%Y-%m-%d\"." } ∧
    ¬ List.IsInfix "blah".data
        "Could not parse journal format (\"%Y-%m-%d\") as a valid uri: \"%Y-%m-%d\".".data ∧
    (note fuzzyNone fmtDTLit 0 showOk "/root" settingsC8 "j" (some "blah")).logs =
      [(MessageKind.error, "could not parse Some(\"blah\"): Some(Err(..))")] ∧
    List.IsInfix "blah".data
      "could not parse Some(\"blah\"): Some(Err(..))".data := by
  refine ⟨rfl, by decide, rfl, by decide⟩

/-- C8 as amended: when `note()` is given a date string that fails fuzzy
parsing (and the named notebook exists), it returns an invalid-parameter
error whose message contains the configured format string — but not the raw
input — and sends exactly one error-level log message to the client, whose
text does contain the raw unparsed input. -/
theorem C8_note_parse_failure :
    ∀ (fuzzyParse : String → Option Int) (fmtDT : String → Int → String)
      (now : Int) (showDoc : String → Except RpcError Bool)
      (root : String) (settings : Settings) (name s : String) (nb : Notebook),
      settings.notebooks.lookup name = some nb →
      fuzzyParse s = none →
      ∃ msg logmsg,
        (note fuzzyParse fmtDT now showDoc root settings name (some s)).result =
          Except.error { code := -32602, message := msg } ∧
        List.IsInfix nb.note_format.data msg.data ∧
        (note fuzzyParse fmtDT now showDoc root settings name (some s)).logs =
          [(MessageKind.error, logmsg)] ∧
        List.IsInfix s.data logmsg.data := by
  intro fuzzyParse fmtDT now showDoc root settings name s nb hlook hparse
  have hnf : noteFile fuzzyParse fmtDT now nb.note_format
      (joinPath root nb.folder) (some s) = none := by
    unfold noteFile
    dsimp only
    rw [hparse]
    rfl
  have hnote : note fuzzyParse fmtDT now showDoc root settings name (some s) =
      { logs := [(MessageKind.error, noteParseLogMsg fuzzyParse (some s))]
        fsOps := []
        result :=
          Except.error (invalidParams (journalFormatError nb.note_format)) } := by
    unfold note
    rw [hlook]
    dsimp only
    rw [hnf]
  refine ⟨journalFormatError nb.note_format,
    noteParseLogMsg fuzzyParse (some s), ?_, ?_, ?_, ?_⟩
  · rw [hnote]
    rfl
  · refine ⟨"Could not parse journal format (".data ++ ['\"'],
      ['\"'] ++ (") as a valid uri: " ++ debugStr nb.note_format ++ ".").data, ?_⟩
    simp [journalFormatError, debugStr, strDataAppend, List.append_assoc]
  · rw [hnote]
  · refine ⟨"could not parse Some(".data ++ ['\"'],
      ['\"'] ++ (")" ++ ": " ++ debugParseOutcome fuzzyParse (some s)).data, ?_⟩
    simp [noteParseLogMsg, debugOptStr, debugStr, strDataAppend, List.append_assoc]

/-- Witness for C8 as amended, at the concrete failing input `blah`. -/
theorem C8_note_parse_failure_witness :
    (settingsC8.notebooks.lookup "j" = some nbDailyC7 ∧
      fuzzyNone "blah" = none) ∧
    (∃ msg logmsg,
      (note fuzzyNone fmtDTLit 0 showOk "/root" settingsC8 "j" (some "blah")).result =
        Except.error { code := -32602, message := msg } ∧
      List.IsInfix nbDailyC7.note_format.data msg.data ∧
      (note fuzzyNone fmtDTLit 0 showOk "/root" settingsC8 "j" (some "blah")).logs =
        [(MessageKind.error, logmsg)] ∧
      List.IsInfix "blah".data logmsg.data) :=
  ⟨⟨rfl, rfl⟩,
    C8_note_parse_failure fuzzyNone fmtDTLit 0 showOk "/root" settingsC8
      "j" "blah" nbDailyC7 rfl rfl⟩

/-- C10: whenever `note()` fails because the named notebook is absent or the
supplied date string fails to parse, it performs no filesystem mutation and
returns an error; and any filesystem mutation at all implies the target URI
had been resolved (creation happens only on the success path). -/
theorem C10_note_no_fs_on_failure :
    ∀ (fuzzyParse : String → Option Int) (fmtDT : String → Int → String)
      (now : Int) (showDoc : String → Except RpcError Bool)
      (root : String) (settings : Settings) (name : String)
      (dateStr : Option String),
      ((settings.notebooks.lookup name = none ∨
        (∃ s, dateStr = some s ∧ fuzzyParse s = none)) →
        (note fuzzyParse fmtDT now showDoc root settings name dateStr).fsOps = [] ∧
        ∃ e, (note fuzzyParse fmtDT now showDoc root settings name dateStr).result =
          Except.error e) ∧
      ((note fuzzyParse fmtDT now showDoc root settings name dateStr).fsOps ≠ [] →
        ∃ nb uri, settings.notebooks.lookup name = some nb ∧
          noteFile fuzzyParse fmtDT now nb.note_format (joinPath root nb.folder)
            dateStr = some uri) := by
  intro fuzzyParse fmtDT now showDoc root settings name dateStr
  cases hlook : settings.notebooks.lookup name with
  | none =>
    have hnote : note fuzzyParse fmtDT now showDoc root settings name dateStr =
        { logs := []
          fsOps := []
          result := Except.error (invalidParams "Notebook does not exist") } := by
      unfold note
      rw [hlook]
    constructor
    · intro _
      rw [hnote]
      exact ⟨rfl, _, rfl⟩
    · intro hne
      rw [hnote] at hne
      exact absurd rfl hne
  | some nb =>
    cases hnf : noteFile fuzzyParse fmtDT now nb.note_format
        (joinPath root nb.folder) dateStr with
    | some uri =>
      constructor
      · intro hfail
        rcases hfail with h1 | ⟨s, hs, hps⟩
        · simp [hlook] at h1
        · exfalso
          rw [hs] at hnf
          unfold noteFile at hnf
          dsimp only at hnf
          rw [hps] at hnf
          simp at hnf
      · intro _
        exact ⟨nb, uri, rfl, hnf⟩
    | none =>
      have hnote : note fuzzyParse fmtDT now showDoc root settings name dateStr =
          { logs := [(MessageKind.error, noteParseLogMsg fuzzyParse dateStr)]
            fsOps := []
            result :=
              Except.error (invalidParams (journalFormatError nb.note_format)) } := by
        unfold note
        rw [hlook]
        dsimp only
        rw [hnf]
      constructor
      · intro _
        rw [hnote]
        exact ⟨rfl, _, rfl⟩
      · intro hne
        rw [hnote] at hne
        exact absurd rfl hne

/-- Witness for C10 at the concrete failing parse: no filesystem operation is
recorded and an error is returned. -/
theorem C10_note_no_fs_on_failure_witness :
    (settingsC8.notebooks.lookup "missing" = none ∨
      (∃ s, (some "blah" : Option String) = some s ∧ fuzzyNone s = none)) ∧
    ((note fuzzyNone fmtDTLit 0 showOk "/root" settingsC8 "missing"
        (some "blah")).fsOps = [] ∧
      ∃ e, (note fuzzyNone fmtDTLit 0 showOk "/root" settingsC8 "missing"
        (some "blah")).result = Except.error e) :=
  ⟨Or.inl rfl,
    (C10_note_no_fs_on_failure fuzzyNone fmtDTLit 0 showOk "/root" settingsC8
      "missing" (some "blah")).1 (Or.inl rfl)⟩

end MdOxide
